import Mathlib

/-!
Shallow embedding of the `wesl-metadata` crate (files `src/lib.rs`,
`src/errors.rs`, `src/dependency.rs`): the metadata data model, its queries
(`root_package`, indexing by `PackageId`, `license_file`, `readme`), the
command builder `wesl_command`, and the `exec` pipeline (exit-status check,
UTF-8 decoding, JSON-line extraction, deserialization), together with the
serde serialization/deserialization of the model.

Rust machine integers that appear (`usize` for the schema version) are
modelled as `Nat`; fallible operations return `Option`/`Except`; the panic
in the `Index` implementations is modelled by an `Option`-valued lookup
whose `none` case is the panic branch.
-/

/-- Model of `serde_json::Value`.  Numbers are modelled as `Int`
(`serde_json::Number` also admits floating-point numbers; no behaviour
verified here depends on non-integer numbers).  Objects are modelled as
association lists in emission order. -/
inductive Json where
  | null : Json
  | bool (b : Bool) : Json
  | num (n : Int) : Json
  | str (s : String) : Json
  | arr (elems : List Json) : Json
  | obj (fields : List (String × Json)) : Json

/-- Model of the helper `is_null` from `src/lib.rs`:
`matches!(value, serde_json::Value::Null)`. -/
def Json.is_null : Json → Bool
  | .null => true
  | _ => false

/-! ### Path model

`camino::Utf8PathBuf` is modelled as `String`.  `join` and `parent` model
the Unix behaviour of `std::path::Path::join` / `parent` (which camino
delegates to) for ordinary paths: `join` replaces the base when the child is
absolute, otherwise appends with a separator; `parent` drops the final
component. -/

/-- Model of `Utf8Path::is_absolute` on Unix: the path starts with `/`. -/
def pathIsAbsolute (p : String) : Bool :=
  decide (p.data.head? = some (Char.ofNat 47))

/-- Model of `Utf8PathBuf::join` (Unix): an absolute child replaces the
base; otherwise the child is appended, inserting `/` unless the base is
empty or already ends in the separator. -/
def pathJoin (base child : String) : String :=
  if pathIsAbsolute child then child
  else if decide (base.data = []) then child
  else if decide (base.data.getLast? = some (Char.ofNat 47)) then base ++ child
  else base ++ "/" ++ child

/-- Index of the last occurrence of a character in a list, if any. -/
def lastIdxOf (c : Char) : List Char → Option Nat
  | [] => none
  | x :: xs =>
    match lastIdxOf c xs with
    | some i => some (i + 1)
    | none => if x = c then some 0 else none

/-- Model of `Utf8Path::parent` (Unix, paths without `.`/`..` components):
`none` for the root and the empty path, otherwise the path with its final
component (and a trailing separator, if present) removed; a single relative
component has parent `""`. -/
def pathParent (p : String) : Option String :=
  if p = "" then none
  else if p = "/" then none
  else
    let q := if decide (p.data.getLast? = some (Char.ofNat 47)) then
        String.mk p.data.dropLast
      else p
    match lastIdxOf (Char.ofNat 47) q.data with
    | none => some ""
    | some 0 => some "/"
    | some i => some (String.mk (q.data.take i))

/-! ### The data model (`src/lib.rs`, `src/dependency.rs`) -/

/-- `PackageId`: an opaque identifier for a package
(`#[serde(transparent)]` over its `repr` string). -/
structure PackageId where
  repr : String
deriving DecidableEq

/-- `impl fmt::Display for PackageId`: displays the underlying string. -/
def PackageId.display (i : PackageId) : String := i.repr

/-- The `PackageManager` enum: `Npm` or `Cargo`. -/
inductive PackageManager where
  | Npm : PackageManager
  | Cargo : PackageManager
deriving DecidableEq

/-- The `Edition` enum: `Wgsl` (serde-renamed `"WGSL"`, the `#[default]`)
and `WeslUnstable2025` (serde-renamed `"WESL"`). -/
inductive Edition where
  | Wgsl : Edition
  | WeslUnstable2025 : Edition
deriving DecidableEq

instance : Inhabited Edition := ⟨Edition.Wgsl⟩

/-- `Edition::as_str`: the string representation of the edition. -/
def Edition.as_str : Edition → String
  | .Wgsl => "WGSL"
  | .WeslUnstable2025 => "WESL"

/-- `semver::Version`, modelled by its `major.minor.patch` numeric triple
(pre-release and build metadata are not produced by any code path verified
here). -/
structure Version where
  major : Nat
  minor : Nat
  patch : Nat
deriving DecidableEq

/-- `Dependency` (`src/dependency.rs`): a declared dependency with its
manifest name, optional rename and optional local path. -/
structure Dependency where
  name : String
  rename : Option String
  path : Option String
deriving DecidableEq

/-- `Package`: one manifest's worth of metadata (field order as declared
in `src/lib.rs`). -/
structure Package where
  name : String
  version : Version
  authors : List String
  id : PackageId
  description : Option String
  dependencies : List Dependency
  license : Option String
  license_file : Option String
  manifest_path : String
  categories : List String
  keywords : List String
  readme : Option String
  repository : Option String
  homepage : Option String
  documentation : Option String
  edition : Edition
  metadata : Json

/-- `NodeDependency`: the effective (post-rename) name together with the
package id. -/
structure NodeDependency where
  name : String
  pkg : PackageId
deriving DecidableEq

/-- `Node`: one resolved package's adjacency information. -/
structure Node where
  id : PackageId
  renamed_dependencies : List NodeDependency
  dependencies : List PackageId
deriving DecidableEq

/-- `Resolve`: the resolved dependency graph. -/
structure Resolve where
  nodes : List Node
  root : Option PackageId
deriving DecidableEq

/-- `Metadata`: the root aggregate returned by `wesl metadata`. -/
structure Metadata where
  package_manager : PackageManager
  packages : List Package
  resolve : Option Resolve
  target_directory : String
  version : Nat
  root_package_directory : String

/-- `Target`: a single build target (field order as declared in
`src/lib.rs`). -/
structure Target where
  name : String
  required_features : List String
  src_path : String
  edition : Edition
  doctest : Bool
  test : Bool
  doc : Bool
deriving DecidableEq

/-! ### Queries on the model -/

/-- `Metadata::root_package`: with a resolve graph, look up its `root` id
in `packages`; without one, look for the package whose manifest path is
`root_package_directory.join("wesl.toml")`. -/
def Metadata.root_package (m : Metadata) : Option Package :=
  match m.resolve with
  | some resolve =>
    match resolve.root with
    | none => none
    | some root => m.packages.find? (fun pkg => decide (pkg.id = root))
  | none =>
    let root_manifest_path := pathJoin m.root_package_directory "wesl.toml"
    m.packages.find? (fun pkg => decide (pkg.manifest_path = root_manifest_path))

/-- `impl Index<&PackageId> for Metadata`: linear scan for the first package
with the given id.  The source panics when no package matches; the panic
branch is modelled by `none`. -/
def Metadata.indexPackage (m : Metadata) (index : PackageId) : Option Package :=
  m.packages.find? (fun package => decide (package.id = index))

/-- `impl Index<&PackageId> for Resolve`: linear scan for the first node
with the given id.  The source panics when no node matches; the panic
branch is modelled by `none`. -/
def Resolve.indexNode (r : Resolve) (index : PackageId) : Option Node :=
  r.nodes.find? (fun node => decide (node.id = index))

/-- `Package::license_file`: full path to the license file, when present in
the manifest: the manifest path's parent (or the manifest path itself when
it has no parent) joined with the relative `license_file` field. -/
def Package.license_file_path (p : Package) : Option String :=
  p.license_file.map (fun file =>
    pathJoin ((pathParent p.manifest_path).getD p.manifest_path) file)

/-- `Package::readme`: full path to the readme file, when present in the
manifest. -/
def Package.readme_path (p : Package) : Option String :=
  p.readme.map (fun file =>
    pathJoin ((pathParent p.manifest_path).getD p.manifest_path) file)

/-! ### The error taxonomy (`src/errors.rs`)

Rust error payloads that are foreign error objects (`io::Error`,
`Utf8Error`, `FromUtf8Error`, `serde_json::Error`) are modelled by their
display strings. -/

/-- The `Error` enum of `src/errors.rs`. -/
inductive Error where
  | WeslMetadata (stderr : String) : Error
  | Io (msg : String) : Error
  | Utf8 (msg : String) : Error
  | ErrUtf8 (msg : String) : Error
  | Json (msg : String) : Error
  | NoJson : Error
deriving DecidableEq

/-- The `thiserror`-derived `Display` of `Error`, with each variant's format
string from `src/errors.rs`. -/
def Error.display : Error → String
  | .WeslMetadata stderr => "`wesl metadata` exited with an error: " ++ stderr
  | .Io msg => "failed to start `wesl metadata`: " ++ msg
  | .Utf8 msg => "cannot convert the stdout of `wesl metadata`: " ++ msg
  | .ErrUtf8 msg => "cannot convert the stderr of `wesl metadata`: " ++ msg
  | .Json msg => "failed to interpret `wesl metadata`\x27s json: " ++ msg
  | .NoJson => "could not find any json in the output of `wesl metadata`"

/-! ### UTF-8 decoding

Model of `std::str::from_utf8` / `String::from_utf8`: strict validation,
rejecting truncated sequences, stray continuation bytes, overlong
encodings, surrogates and code points above `0x10FFFF`. -/

/-- A UTF-8 continuation byte: `0x80 ≤ b < 0xC0`. -/
def isUtf8Cont (b : Nat) : Bool := decide (128 ≤ b ∧ b < 192)

/-- Strict UTF-8 decoding of a byte sequence into characters, `none` on any
invalid sequence (model of `std::str::from_utf8`).  The `fuel` argument
makes the recursion structural; every step consumes at least one byte and
one unit of fuel, so `fuel = length` never reaches the out-of-fuel case. -/
def utf8DecodeFuel : Nat → List Nat → Option (List Char)
  | _, [] => some []
  | 0, _ :: _ => none
  | fuel + 1, b :: rest =>
    if b < 128 then
      match utf8DecodeFuel fuel rest with
      | some cs => some (Char.ofNat b :: cs)
      | none => none
    else if b < 194 then none
    else if b < 224 then
      match rest with
      | b2 :: rest2 =>
        if isUtf8Cont b2 then
          match utf8DecodeFuel fuel rest2 with
          | some cs => some (Char.ofNat ((b - 192) * 64 + (b2 - 128)) :: cs)
          | none => none
        else none
      | [] => none
    else if b < 240 then
      match rest with
      | b2 :: b3 :: rest3 =>
        if (if b = 224 then decide (160 ≤ b2 ∧ b2 < 192)
            else if b = 237 then decide (128 ≤ b2 ∧ b2 < 160)
            else isUtf8Cont b2) && isUtf8Cont b3 then
          match utf8DecodeFuel fuel rest3 with
          | some cs =>
            some (Char.ofNat ((b - 224) * 4096 + (b2 - 128) * 64 + (b3 - 128)) :: cs)
          | none => none
        else none
      | _ => none
    else if b < 245 then
      match rest with
      | b2 :: b3 :: b4 :: rest4 =>
        if (if b = 240 then decide (144 ≤ b2 ∧ b2 < 192)
            else if b = 244 then decide (128 ≤ b2 ∧ b2 < 144)
            else isUtf8Cont b2) && isUtf8Cont b3 && isUtf8Cont b4 then
          match utf8DecodeFuel fuel rest4 with
          | some cs =>
            some (Char.ofNat
              ((b - 240) * 262144 + (b2 - 128) * 4096 + (b3 - 128) * 64 + (b4 - 128)) :: cs)
          | none => none
        else none
      | _ => none
    else none

/-- Strict UTF-8 decoding of a whole byte list. -/
def utf8Decode (bytes : List Nat) : Option (List Char) :=
  utf8DecodeFuel bytes.length bytes

/-- Model of `String::from_utf8` over modelled byte lists. -/
def utf8DecodeString (bytes : List Nat) : Option String :=
  (utf8Decode bytes).map String.mk

/-! ### Line splitting (model of Rust `str::lines`) -/

/-- Split a character list at every occurrence of the separator (model of
single-separator `String::split`). -/
def splitOnChar (sep : Char) : List Char → List (List Char)
  | [] => [[]]
  | c :: cs =>
    if c = sep then [] :: splitOnChar sep cs
    else
      match splitOnChar sep cs with
      | [] => [[c]]
      | g :: gs => (c :: g) :: gs

/-- Model of `str::lines`: split on `\n`, drop the empty fragment produced
by a trailing newline, and strip one trailing `\r` from each line. -/
def rustLines (s : String) : List String :=
  let parts := (splitOnChar (Char.ofNat 10) s.data).map String.mk
  let parts :=
    match parts.getLast? with
    | some "" => parts.dropLast
    | _ => parts
  parts.map (fun line =>
    if decide (line.data.getLast? = some (Char.ofNat 13)) then
      String.mk line.data.dropLast
    else line)

/-- Does the line start with `{` (Rust `line.starts_with('{')`)? -/
def startsWithBrace (line : String) : Bool :=
  decide (line.data.head? = some (Char.ofNat 123))

/-- The JSON-payload extraction step of `MetadataCommand::exec`
(`src/lib.rs` lines 651–654): the first line of the decoded standard output
whose first character is `{`, or `Error::NoJson` when no line qualifies. -/
def extractJsonLine (stdoutText : String) : Except Error String :=
  match (rustLines stdoutText).find? startsWithBrace with
  | some line => .ok line
  | none => .error .NoJson

/-! ### Deserialization (the serde-derived `Deserialize` implementations)

Each struct decoder models the serde derive: unknown keys are ignored, a
missing required field is an error, serde-`default` fields fall back to
their default, and `Option` fields fall back to `none` when the key is
absent.  One divergence on pathological inputs: serde rejects a duplicated
key with a `duplicate field` error, while `getField` resolves it to the
first occurrence. -/

/-- First value bound to `name` in a JSON object's field list. -/
def getField : List (String × Json) → String → Option Json
  | [], _ => none
  | (k, v) :: rest, name => if k = name then some v else getField rest name

/-- Decode a JSON string. -/
def decodeString : Json → Except String String
  | .str s => .ok s
  | _ => .error "expected a string"

/-- Decode a JSON boolean. -/
def decodeBool : Json → Except String Bool
  | .bool b => .ok b
  | _ => .error "expected a boolean"

/-- Decode a `usize` (a nonnegative JSON integer). -/
def decodeUsize : Json → Except String Nat
  | .num n => if n < 0 then .error "expected a nonnegative integer" else .ok n.toNat
  | _ => .error "expected an integer"

/-- Decode a `PackageId` (`#[serde(transparent)]`: just its string). -/
def decodePackageId : Json → Except String PackageId
  | .str s => .ok ⟨s⟩
  | _ => .error "expected a string"

/-- Decode an `Edition` from its serde-renamed string representation.  Any
other string is a hard parse error (`unknown variant`). -/
def decodeEdition : Json → Except String Edition
  | .str s =>
    if s = "WGSL" then .ok .Wgsl
    else if s = "WESL" then .ok .WeslUnstable2025
    else .error "unknown variant of Edition"
  | _ => .error "expected a string"

/-- Decode a `PackageManager` from its externally-tagged unit-variant
representation (the variant name as a string). -/
def decodePackageManager : Json → Except String PackageManager
  | .str s =>
    if s = "Npm" then .ok .Npm
    else if s = "Cargo" then .ok .Cargo
    else .error "unknown variant of PackageManager"
  | _ => .error "expected a string"

/-- Decode the free-form `serde_json::Value` payload: any JSON value is
itself. -/
def decodeJsonValue (v : Json) : Except String Json := .ok v

/-- Decode each element of a JSON array in order, propagating the first
failure (the serde sequence visitor's loop). -/
def decodeElems (dec : Json → Except String α) : List Json → Except String (List α)
  | [] => .ok []
  | v :: vs => do
    let x ← dec v
    let xs ← decodeElems dec vs
    .ok (x :: xs)

/-- Decode a `Vec<α>` from a JSON array. -/
def decodeList (dec : Json → Except String α) : Json → Except String (List α)
  | .arr elems => decodeElems dec elems
  | _ => .error "expected an array"

/-- Decode an `Option<α>`: `null` is `none`, anything else decodes the
value. -/
def decodeOption (dec : Json → Except String α) : Json → Except String (Option α)
  | .null => .ok none
  | v => (dec v).map some

/-- A required struct field: an absent key is a hard error. -/
def reqField (fields : List (String × Json)) (name : String)
    (dec : Json → Except String α) : Except String α :=
  match getField fields name with
  | some v => dec v
  | none => .error ("missing field " ++ name)

/-- A `#[serde(default)]` struct field: an absent key yields the default. -/
def optField (fields : List (String × Json)) (name : String)
    (dec : Json → Except String α) (dflt : α) : Except String α :=
  match getField fields name with
  | some v => dec v
  | none => .ok dflt

/-- An `Option`-typed struct field: an absent key yields `none`. -/
def optionField (fields : List (String × Json)) (name : String)
    (dec : Json → Except String α) : Except String (Option α) :=
  match getField fields name with
  | some v => decodeOption dec v
  | none => .ok none

/-! #### `semver::Version` string form

`semver::Version` serializes as the string `major.minor.patch` and parses
it back (the model covers the bare numeric triple; pre-release/build
suffixes and the leading-zero rejection of the real parser are not
modelled). -/

/-- Decimal digit characters of a natural number, most significant
first. -/
def natToChars (n : Nat) : List Char :=
  if n = 0 then [Char.ofNat 48] else (Nat.digits 10 n).reverse.map Nat.digitChar

/-- Numeric value of a decimal digit character. -/
def charToDigit (c : Char) : Nat := c.toNat - 48

/-- Value of a most-significant-first decimal digit string. -/
def parseNatChars (cs : List Char) : Nat :=
  cs.foldl (fun acc c => acc * 10 + charToDigit c) 0

/-- Is this character a decimal digit? -/
def isDigitChar (c : Char) : Bool := decide (48 ≤ c.toNat ∧ c.toNat ≤ 57)

/-- A nonempty all-digit character list. -/
def validNatChars (cs : List Char) : Bool := decide (cs ≠ []) && cs.all isDigitChar

/-- Split a character list on `.` separators. -/
def splitOnDot : List Char → List (List Char)
  | [] => [[]]
  | c :: cs =>
    if c = Char.ofNat 46 then [] :: splitOnDot cs
    else
      match splitOnDot cs with
      | [] => [[c]]
      | g :: gs => (c :: g) :: gs

/-- The `Display` form of a `Version`: `major.minor.patch`. -/
def versionToString (v : Version) : String :=
  String.mk (natToChars v.major ++ Char.ofNat 46 :: natToChars v.minor
    ++ Char.ofNat 46 :: natToChars v.patch)

/-- Parse a `major.minor.patch` version string. -/
def parseVersionString (s : String) : Except String Version :=
  match splitOnDot s.data with
  | [a, b, c] =>
    if validNatChars a && validNatChars b && validNatChars c then
      .ok ⟨parseNatChars a, parseNatChars b, parseNatChars c⟩
    else .error "invalid version"
  | _ => .error "invalid version"

/-- Decode a `semver::Version` from its JSON string form. -/
def decodeVersion : Json → Except String Version
  | .str s => parseVersionString s
  | _ => .error "expected a version string"

/-- Decode a `Dependency` (`src/dependency.rs`). -/
def decodeDependency : Json → Except String Dependency
  | .obj fields => do
    let name ← reqField fields "name" decodeString
    let rename ← optionField fields "rename" decodeString
    let path ← optionField fields "path" decodeString
    .ok ⟨name, rename, path⟩
  | _ => .error "expected an object"

/-- Decode a `Package` (field-by-field per the serde attributes on
`Package` in `src/lib.rs`). -/
def decodePackage : Json → Except String Package
  | .obj fields => do
    let name ← reqField fields "name" decodeString
    let version ← reqField fields "version" decodeVersion
    let authors ← optField fields "authors" (decodeList decodeString) []
    let id ← reqField fields "id" decodePackageId
    let description ← optionField fields "description" decodeString
    let dependencies ← reqField fields "dependencies" (decodeList decodeDependency)
    let license ← optionField fields "license" decodeString
    let license_file ← optionField fields "license_file" decodeString
    let manifest_path ← reqField fields "manifest_path" decodeString
    let categories ← optField fields "categories" (decodeList decodeString) []
    let keywords ← optField fields "keywords" (decodeList decodeString) []
    let readme ← optionField fields "readme" decodeString
    let repository ← optionField fields "repository" decodeString
    let homepage ← optionField fields "homepage" decodeString
    let documentation ← optionField fields "documentation" decodeString
    let edition ← optField fields "edition" decodeEdition .Wgsl
    let metadata ← optField fields "metadata" decodeJsonValue .null
    .ok ⟨name, version, authors, id, description, dependencies, license, license_file,
      manifest_path, categories, keywords, readme, repository, homepage, documentation,
      edition, metadata⟩
  | _ => .error "expected an object"

/-- Decode a `NodeDependency`. -/
def decodeNodeDependency : Json → Except String NodeDependency
  | .obj fields => do
    let name ← reqField fields "name" decodeString
    let pkg ← reqField fields "pkg" decodePackageId
    .ok ⟨name, pkg⟩
  | _ => .error "expected an object"

/-- Decode a `Node`: `renamed_dependencies` is `#[serde(default)]`
(absent means empty), `id` and `dependencies` are required. -/
def decodeNode : Json → Except String Node
  | .obj fields => do
    let id ← reqField fields "id" decodePackageId
    let renamed_dependencies ←
      optField fields "renamed_dependencies" (decodeList decodeNodeDependency) []
    let dependencies ← reqField fields "dependencies" (decodeList decodePackageId)
    .ok ⟨id, renamed_dependencies, dependencies⟩
  | _ => .error "expected an object"

/-- Decode a `Resolve`. -/
def decodeResolve : Json → Except String Resolve
  | .obj fields => do
    let nodes ← reqField fields "nodes" (decodeList decodeNode)
    let root ← optionField fields "root" decodePackageId
    .ok ⟨nodes, root⟩
  | _ => .error "expected an object"

/-- Decode a `Metadata`. -/
def decodeMetadata : Json → Except String Metadata
  | .obj fields => do
    let package_manager ← reqField fields "package_manager" decodePackageManager
    let packages ← reqField fields "packages" (decodeList decodePackage)
    let resolve ← optionField fields "resolve" decodeResolve
    let target_directory ← reqField fields "target_directory" decodeString
    let version ← reqField fields "version" decodeUsize
    let root_package_directory ← reqField fields "root_package_directory" decodeString
    .ok ⟨package_manager, packages, resolve, target_directory, version,
      root_package_directory⟩
  | _ => .error "expected an object"

/-- Decode a `Target`: `required-features` (serde-renamed), `edition`,
`doctest`, `test` and `doc` are defaulted when absent (the three booleans
default to `true`); `name` and `src_path` are required. -/
def decodeTarget : Json → Except String Target
  | .obj fields => do
    let name ← reqField fields "name" decodeString
    let required_features ←
      optField fields "required-features" (decodeList decodeString) []
    let src_path ← reqField fields "src_path" decodeString
    let edition ← optField fields "edition" decodeEdition .Wgsl
    let doctest ← optField fields "doctest" decodeBool true
    let test ← optField fields "test" decodeBool true
    let doc ← optField fields "doc" decodeBool true
    .ok ⟨name, required_features, src_path, edition, doctest, test, doc⟩
  | _ => .error "expected an object"

/-! ### Serialization (the serde-derived `Serialize` implementations)

Fields are emitted in declaration order; `Option` fields serialize as
`null` when `none`; the free-form `Package.metadata` value is skipped when
it is `null` (`#[serde(default, skip_serializing_if = "is_null")]`). -/

/-- Serialize an `Option<α>`: `none` becomes `null`. -/
def encodeOption (enc : α → Json) : Option α → Json
  | none => .null
  | some x => enc x

/-- Serialize a `semver::Version` as its display string. -/
def encodeVersion (v : Version) : Json := .str (versionToString v)

/-- Serialize an `Edition` as its serde-renamed string. -/
def encodeEdition (e : Edition) : Json := .str e.as_str

/-- Serialize a `PackageManager` as its variant-name string. -/
def encodePackageManager : PackageManager → Json
  | .Npm => .str "Npm"
  | .Cargo => .str "Cargo"

/-- Serialize a `Dependency`. -/
def encodeDependency (d : Dependency) : Json :=
  .obj [("name", .str d.name), ("rename", encodeOption Json.str d.rename),
    ("path", encodeOption Json.str d.path)]

/-- Serialize a `Package`; the `metadata` key is omitted when the value is
`null`. -/
def encodePackage (p : Package) : Json :=
  .obj ([("name", .str p.name),
    ("version", encodeVersion p.version),
    ("authors", .arr (p.authors.map Json.str)),
    ("id", .str p.id.repr),
    ("description", encodeOption Json.str p.description),
    ("dependencies", .arr (p.dependencies.map encodeDependency)),
    ("license", encodeOption Json.str p.license),
    ("license_file", encodeOption Json.str p.license_file),
    ("manifest_path", .str p.manifest_path),
    ("categories", .arr (p.categories.map Json.str)),
    ("keywords", .arr (p.keywords.map Json.str)),
    ("readme", encodeOption Json.str p.readme),
    ("repository", encodeOption Json.str p.repository),
    ("homepage", encodeOption Json.str p.homepage),
    ("documentation", encodeOption Json.str p.documentation),
    ("edition", encodeEdition p.edition)]
    ++ (if p.metadata.is_null then [] else [("metadata", p.metadata)]))

/-- Serialize a `NodeDependency`. -/
def encodeNodeDependency (d : NodeDependency) : Json :=
  .obj [("name", .str d.name), ("pkg", .str d.pkg.repr)]

/-- Serialize a `Node`. -/
def encodeNode (n : Node) : Json :=
  .obj [("id", .str n.id.repr),
    ("renamed_dependencies", .arr (n.renamed_dependencies.map encodeNodeDependency)),
    ("dependencies", .arr (n.dependencies.map (fun i => Json.str i.repr)))]

/-- Serialize a `Resolve`. -/
def encodeResolve (r : Resolve) : Json :=
  .obj [("nodes", .arr (r.nodes.map encodeNode)),
    ("root", encodeOption (fun i => Json.str i.repr) r.root)]

/-- Serialize a `Metadata`. -/
def encodeMetadata (m : Metadata) : Json :=
  .obj [("package_manager", encodePackageManager m.package_manager),
    ("packages", .arr (m.packages.map encodePackage)),
    ("resolve", encodeOption encodeResolve m.resolve),
    ("target_directory", .str m.target_directory),
    ("version", .num (Int.ofNat m.version)),
    ("root_package_directory", .str m.root_package_directory)]

/-! ### JSON text reading

Modelled from the spec: `MetadataCommand::parse` calls
`serde_json::from_str`, an external dependency whose text-level reader is
not part of this repository.  The model below is a recursive-descent JSON
reader over characters (integer numbers and the common escapes; `\u`
escapes and floating-point numbers are not modelled).  No claim is settled
against its internals; it only completes the `exec` pipeline. -/

/-- Skip JSON whitespace. -/
def skipWs : List Char → List Char
  | [] => []
  | c :: cs =>
    if c = Char.ofNat 32 ∨ c = Char.ofNat 9 ∨ c = Char.ofNat 10 ∨ c = Char.ofNat 13 then
      skipWs cs
    else c :: cs

/-- Read the body of a JSON string literal (opening quote already
consumed); returns the string and the rest of the input. -/
def readStringBody (acc : List Char) : List Char → Option (String × List Char)
  | [] => none
  | c :: cs =>
    if c = Char.ofNat 34 then some (String.mk acc.reverse, cs)
    else if c = Char.ofNat 92 then
      match cs with
      | [] => none
      | e :: cs2 =>
        if e = Char.ofNat 34 then readStringBody (Char.ofNat 34 :: acc) cs2
        else if e = Char.ofNat 92 then readStringBody (Char.ofNat 92 :: acc) cs2
        else if e = Char.ofNat 47 then readStringBody (Char.ofNat 47 :: acc) cs2
        else if e = Char.ofNat 110 then readStringBody (Char.ofNat 10 :: acc) cs2
        else if e = Char.ofNat 116 then readStringBody (Char.ofNat 9 :: acc) cs2
        else if e = Char.ofNat 114 then readStringBody (Char.ofNat 13 :: acc) cs2
        else none
    else readStringBody (c :: acc) cs
termination_by cs => cs.length

/-- Read a JSON integer (optional minus sign and digits). -/
def readInt (cs : List Char) : Option (Int × List Char) :=
  match cs with
  | c :: cs1 =>
    if c = Char.ofNat 45 then
      let ds := cs1.takeWhile isDigitChar
      if ds.isEmpty then none
      else some (-(Int.ofNat (parseNatChars ds)), cs1.drop ds.length)
    else
      let ds := cs.takeWhile isDigitChar
      if ds.isEmpty then none
      else some (Int.ofNat (parseNatChars ds), cs.drop ds.length)
  | [] => none

mutual

/-- Read one JSON value (fuel-bounded). -/
def readValue : Nat → List Char → Option (Json × List Char)
  | 0, _ => none
  | fuel + 1, cs =>
    match skipWs cs with
    | [] => none
    | c :: cs1 =>
      if c = Char.ofNat 123 then readObjMembers fuel (skipWs cs1) [] true
      else if c = Char.ofNat 91 then readArrElems fuel (skipWs cs1) [] true
      else if c = Char.ofNat 34 then
        match readStringBody [] cs1 with
        | some (s, rest) => some (.str s, rest)
        | none => none
      else if c = Char.ofNat 116 then
        match cs1 with
        | r :: u :: e :: rest =>
          if r = Char.ofNat 114 ∧ u = Char.ofNat 117 ∧ e = Char.ofNat 101 then
            some (.bool true, rest)
          else none
        | _ => none
      else if c = Char.ofNat 102 then
        match cs1 with
        | a :: l :: s :: e :: rest =>
          if a = Char.ofNat 97 ∧ l = Char.ofNat 108 ∧ s = Char.ofNat 115
              ∧ e = Char.ofNat 101 then
            some (.bool false, rest)
          else none
        | _ => none
      else if c = Char.ofNat 110 then
        match cs1 with
        | u :: l1 :: l2 :: rest =>
          if u = Char.ofNat 117 ∧ l1 = Char.ofNat 108 ∧ l2 = Char.ofNat 108 then
            some (.null, rest)
          else none
        | _ => none
      else
        match readInt (c :: cs1) with
        | some (n, rest) => some (.num n, rest)
        | none => none

/-- Read the members of a JSON object after `{` (fuel-bounded); `first`
marks that no member has been read yet. -/
def readObjMembers : Nat → List Char → List (String × Json) → Bool →
    Option (Json × List Char)
  | 0, _, _, _ => none
  | fuel + 1, cs, acc, first =>
    match cs with
    | [] => none
    | c :: cs1 =>
      if c = Char.ofNat 125 ∧ first then some (.obj acc.reverse, cs1)
      else
        let cs' := if first then c :: cs1
          else if c = Char.ofNat 44 then skipWs cs1 else []
        match cs' with
        | k :: cs2 =>
          if k = Char.ofNat 34 then
            match readStringBody [] cs2 with
            | some (key, cs3) =>
              match skipWs cs3 with
              | colon :: cs4 =>
                if colon = Char.ofNat 58 then
                  match readValue fuel cs4 with
                  | some (v, cs5) =>
                    match skipWs cs5 with
                    | d :: cs6 =>
                      if d = Char.ofNat 125 then
                        some (.obj ((key, v) :: acc).reverse, cs6)
                      else readObjMembers fuel (d :: cs6) ((key, v) :: acc) false
                    | [] => none
                  | none => none
                else none
              | [] => none
            | none => none
          else none
        | [] => none

/-- Read the elements of a JSON array after `[` (fuel-bounded). -/
def readArrElems : Nat → List Char → List Json → Bool → Option (Json × List Char)
  | 0, _, _, _ => none
  | fuel + 1, cs, acc, first =>
    match cs with
    | [] => none
    | c :: cs1 =>
      if c = Char.ofNat 93 ∧ first then some (.arr acc.reverse, cs1)
      else
        let cs' := if first then c :: cs1
          else if c = Char.ofNat 44 then skipWs cs1 else []
        match readValue fuel cs' with
        | some (v, cs2) =>
          match skipWs cs2 with
          | d :: cs3 =>
            if d = Char.ofNat 93 then some (.arr (v :: acc).reverse, cs3)
            else readArrElems fuel (d :: cs3) (v :: acc) false
          | [] => none
        | none => none

end

/-- Modelled from the spec: `serde_json::from_str`, restricted to producing
the `Json` model.  Reads one value and requires only whitespace after
it. -/
def parseJsonText (s : String) : Except String Json :=
  match readValue (s.data.length + 2) s.data with
  | some (j, rest) => if (skipWs rest).isEmpty then .ok j else .error "trailing characters"
  | none => .error "invalid json"

/-! ### The command builder and the `exec` pipeline -/

/-- `MetadataCommand`: the configuration struct for a `wesl metadata`
invocation (field order as declared in `src/lib.rs`).  The `BTreeMap` of
environment mutations is modelled as an association list in iteration
order. -/
structure MetadataCommand where
  wesl_path : Option String
  manifest_path : Option String
  current_dir : Option String
  no_dependencies : Bool
  other_options : List String
  env : List (String × Option String)
  verbose : Bool

/-- `MetadataCommand::new` / `Default`: all fields empty or `false`. -/
def MetadataCommand.new : MetadataCommand :=
  ⟨none, none, none, false, [], [], false⟩

/-- Model of a built `std::process::Command`: program, argument list,
optional working-directory override, and environment set/remove
operations in application order. -/
structure Invocation where
  program : String
  args : List String
  current_dir : Option String
  env_ops : List (String × Option String)
deriving DecidableEq

/-- `MetadataCommand::wesl_command`: the program is the configured path,
else the `WESL` environment variable (passed in as `envWESL`), else
`"wesl"`; arguments are pushed in source order (`metadata`, then
`--no-dependencies` when set, then `--manifest-path <path>` when set, then
the extra options). -/
def MetadataCommand.wesl_command (cmd : MetadataCommand)
    (envWESL : Option String) : Invocation :=
  let wesl := (cmd.wesl_path.orElse (fun _ => envWESL)).getD "wesl"
  let args := ["metadata"]
  let args := if cmd.no_dependencies then args ++ ["--no-dependencies"] else args
  let args :=
    match cmd.manifest_path with
    | some manifest_path => args ++ ["--manifest-path", manifest_path]
    | none => args
  let args := args ++ cmd.other_options
  { program := wesl, args := args, current_dir := cmd.current_dir,
    env_ops := cmd.env }

/-- `MetadataCommand::parse`: deserialize one line of `wesl metadata`
output (text reading modelled by `parseJsonText`, the derived
deserialization by `decodeMetadata`); any failure is an `Error::Json`. -/
def MetadataCommand.parse (data : String) : Except Error Metadata :=
  match parseJsonText data with
  | .error e => .error (.Json e)
  | .ok j =>
    match decodeMetadata j with
    | .error e => .error (.Json e)
    | .ok meta => .ok meta

/-- The observable result of running the built command
(`std::process::Output`): exit-status success flag and the captured
standard output and standard error, as bytes. -/
structure SpawnOutput where
  status_success : Bool
  stdout : List Nat
  stderr : List Nat

/-- `MetadataCommand::exec`, from the spawned process's captured output
onward (the spawn itself is I/O; a failed spawn is the `Error::Io` case and
precedes this function).  Nonzero exit returns `Error::WeslMetadata` with
the UTF-8-decoded standard error (`Error::ErrUtf8` when decoding fails);
otherwise the standard output is UTF-8-decoded (`Error::Utf8` on failure),
the first line starting with `{` is selected (`Error::NoJson` when there is
none) and parsed. -/
def MetadataCommand.exec (output : SpawnOutput) : Except Error Metadata :=
  if !output.status_success then
    match utf8DecodeString output.stderr with
    | none => .error (.ErrUtf8 "invalid utf-8 sequence")
    | some stderr => .error (.WeslMetadata stderr)
  else
    match utf8DecodeString output.stdout with
    | none => .error (.Utf8 "invalid utf-8 sequence")
    | some text =>
      match extractJsonLine text with
      | .error e => .error e
      | .ok stdout => MetadataCommand.parse stdout

/-! ### Concrete example values (used by the witness theorems) -/

/-- A concrete package with id `id-a`, the root package of `egMeta`. -/
def egPkg : Package :=
  ⟨"a", ⟨1, 2, 3⟩, ["me"], ⟨"id-a"⟩, some "desc", [⟨"dep", none, some "p"⟩], none,
    some "LICENSE", "/proj/wesl.toml", [], ["kw"], some "README.md", none,
    some "hp", none, .WeslUnstable2025, .null⟩

/-- A concrete package with id `id-b`. -/
def egPkgB : Package :=
  ⟨"b", ⟨0, 1, 0⟩, [], ⟨"id-b"⟩, none, [], some "MIT", none, "/proj/b/wesl.toml",
    ["cat"], [], none, some "repo", none, none, .Wgsl, .obj [("x", .num 42)]⟩

/-- A concrete resolve graph rooted at `id-a`. -/
def egResolve : Resolve :=
  ⟨[⟨⟨"id-a"⟩, [⟨"dep", ⟨"id-b"⟩⟩], [⟨"id-b"⟩]⟩, ⟨⟨"id-b"⟩, [], []⟩], some ⟨"id-a"⟩⟩

/-- A concrete metadata value with a resolve graph. -/
def egMeta : Metadata :=
  ⟨.Cargo, [egPkg, egPkgB], some egResolve, "/proj/target", 1, "/proj"⟩

/-- The same metadata without a resolve graph (the `--no-dependencies`
shape). -/
def egMetaNoResolve : Metadata :=
  ⟨.Cargo, [egPkg, egPkgB], none, "/proj/target", 1, "/proj"⟩

/-- A failed spawn: nonzero exit with stderr `manifest not found` (its
UTF-8 bytes). -/
def egFailOutput : SpawnOutput :=
  ⟨false, [],
    [109, 97, 110, 105, 102, 101, 115, 116, 32, 110, 111, 116, 32,
      102, 111, 117, 110, 100]⟩

/-- A failed spawn whose stderr is not valid UTF-8. -/
def egFailOutputBadUtf8 : SpawnOutput := ⟨false, [], [255]⟩

/-! ### Helper lemmas -/

theorem except_bind_ok (x : α) (f : α → Except ε β) :
    (Except.ok x >>= f : Except ε β) = f x := rfl

theorem except_bind_error (e : ε) (f : α → Except ε β) :
    (Except.error e >>= f : Except ε β) = Except.error e := rfl

theorem json_is_null_iff (j : Json) : j.is_null = true ↔ j = .null := by
  cases j <;> simp [Json.is_null]

/-- `List.find?` on a list containing a match returns the first match:
the element at some position `k` satisfying the predicate, with every
earlier position failing it. -/
theorem find?_first_of_exists (p : α → Bool) :
    ∀ l : List α, (∃ a ∈ l, p a = true) →
      ∃ k, ∃ hk : k < l.length, l.find? p = some (l.get ⟨k, hk⟩) ∧
        p (l.get ⟨k, hk⟩) = true ∧
        ∀ j, ∀ hj : j < l.length, j < k → p (l.get ⟨j, hj⟩) = false := by
  intro l
  induction l with
  | nil => intro h; simp at h
  | cons a l ih =>
    intro h
    by_cases hpa : p a = true
    · refine ⟨0, by simp, ?_, ?_, ?_⟩
      · simp [List.find?_cons_of_pos _ hpa]
      · simpa using hpa
      · intro j hj hj0; omega
    · have hpa' : p a = false := by simpa using hpa
      have hl : ∃ b ∈ l, p b = true := by
        rcases h with ⟨b, hb, hpb⟩
        rcases List.mem_cons.1 hb with rfl | hb'
        · exact absurd hpb hpa
        · exact ⟨b, hb', hpb⟩
      rcases ih hl with ⟨k, hk, hfind, hpk, hjs⟩
      refine ⟨k + 1, by simpa using Nat.succ_lt_succ hk, ?_, ?_, ?_⟩
      · rw [List.find?_cons_of_neg _ (by simp [hpa'])]
        simpa using hfind
      · simpa using hpk
      · intro j hj hjk
        cases j with
        | zero => simpa using hpa'
        | succ j0 =>
          have hj0 : j0 < l.length := by
            simp only [List.length_cons] at hj
            omega
          have h0 := hjs j0 hj0 (Nat.lt_of_succ_lt_succ hjk)
          simpa using h0

theorem find?_some_of_exists (p : α → Bool) (l : List α)
    (h : ∃ a ∈ l, p a = true) :
    ∃ b, l.find? p = some b ∧ b ∈ l ∧ p b = true := by
  rcases find?_first_of_exists p l h with ⟨k, hk, hfind, hpk, _⟩
  exact ⟨l.get ⟨k, hk⟩, hfind, List.get_mem l k hk, hpk⟩

theorem find?_eq_none_of_forall (p : α → Bool) (l : List α)
    (h : ∀ a ∈ l, p a = false) : l.find? p = none :=
  List.find?_eq_none.2 (fun a ha => by simp [h a ha])

theorem charToDigit_digitChar (d : Nat) (h : d < 10) :
    charToDigit (Nat.digitChar d) = d := by
  interval_cases d <;> decide

theorem isDigitChar_digitChar (d : Nat) (h : d < 10) :
    isDigitChar (Nat.digitChar d) = true := by
  interval_cases d <;> decide

theorem digitChar_ne_dot (d : Nat) (h : d < 10) :
    Nat.digitChar d ≠ Char.ofNat 46 := by
  interval_cases d <;> decide

theorem foldl_digits (ds : List Nat) (h : ∀ d ∈ ds, d < 10) (acc : Nat) :
    List.foldl (fun a c => a * 10 + charToDigit c) acc (ds.reverse.map Nat.digitChar)
      = acc * 10 ^ ds.length + Nat.ofDigits 10 ds := by
  induction ds generalizing acc with
  | nil => simp [Nat.ofDigits]
  | cons d rest ih =>
    have hd : d < 10 := h d (List.mem_cons_self _ _)
    have hrest : ∀ x ∈ rest, x < 10 := fun x hx => h x (List.mem_cons_of_mem _ hx)
    simp only [List.reverse_cons, List.map_append, List.foldl_append, List.map_cons,
      List.map_nil, List.foldl_cons, List.foldl_nil, List.length_cons]
    rw [ih hrest acc, charToDigit_digitChar d hd, Nat.ofDigits_cons]
    ring

theorem parseNatChars_natToChars (n : Nat) : parseNatChars (natToChars n) = n := by
  by_cases h0 : n = 0
  · subst h0; decide
  · have hd : ∀ d ∈ Nat.digits 10 n, d < 10 :=
      fun d hdm => Nat.digits_lt_base (by norm_num) hdm
    unfold natToChars parseNatChars
    rw [if_neg h0, foldl_digits _ hd 0]
    simp [Nat.ofDigits_digits]

theorem natToChars_valid (n : Nat) : validNatChars (natToChars n) = true := by
  unfold natToChars validNatChars
  by_cases h0 : n = 0
  · subst h0; decide
  · rw [if_neg h0]
    have hne : Nat.digits 10 n ≠ [] := Nat.digits_ne_nil_iff_ne_zero.2 h0
    rw [Bool.and_eq_true]
    refine ⟨by simpa using hne, ?_⟩
    rw [List.all_eq_true]
    intro c hc
    rcases List.mem_map.1 hc with ⟨d, hd, rfl⟩
    exact isDigitChar_digitChar d (Nat.digits_lt_base (by norm_num) (List.mem_reverse.1 hd))

theorem dot_not_mem_natToChars (n : Nat) : Char.ofNat 46 ∉ natToChars n := by
  unfold natToChars
  by_cases h0 : n = 0
  · subst h0; decide
  · rw [if_neg h0]
    intro hmem
    rcases List.mem_map.1 hmem with ⟨d, hd, hc⟩
    exact digitChar_ne_dot d (Nat.digits_lt_base (by norm_num) (List.mem_reverse.1 hd)) hc

theorem splitOnDot_no_dot (cs : List Char) (h : Char.ofNat 46 ∉ cs) :
    splitOnDot cs = [cs] := by
  induction cs with
  | nil => rfl
  | cons c cs ih =>
    have hc : ¬(c = Char.ofNat 46) := fun he => h (he ▸ List.mem_cons_self _ _)
    have hcs : Char.ofNat 46 ∉ cs := fun hm => h (List.mem_cons_of_mem _ hm)
    simp only [splitOnDot]
    rw [if_neg hc, ih hcs]

theorem splitOnDot_append (a rest : List Char) (h : Char.ofNat 46 ∉ a) :
    splitOnDot (a ++ Char.ofNat 46 :: rest) = a :: splitOnDot rest := by
  induction a with
  | nil => simp [splitOnDot]
  | cons c a ih =>
    have hc : ¬(c = Char.ofNat 46) := fun he => h (he ▸ List.mem_cons_self _ _)
    have ha : Char.ofNat 46 ∉ a := fun hm => h (List.mem_cons_of_mem _ hm)
    show splitOnDot (c :: (a ++ Char.ofNat 46 :: rest)) = (c :: a) :: splitOnDot rest
    simp only [splitOnDot]
    rw [if_neg hc, ih ha]

theorem parseVersionString_roundtrip (v : Version) :
    parseVersionString (versionToString v) = .ok v := by
  unfold versionToString parseVersionString
  show (match splitOnDot (natToChars v.major ++ Char.ofNat 46 :: natToChars v.minor
      ++ Char.ofNat 46 :: natToChars v.patch) with
    | [a, b, c] =>
      if validNatChars a && validNatChars b && validNatChars c then
        Except.ok (⟨parseNatChars a, parseNatChars b, parseNatChars c⟩ : Version)
      else Except.error "invalid version"
    | _ => Except.error "invalid version") = Except.ok v
  rw [show natToChars v.major ++ Char.ofNat 46 :: natToChars v.minor
      ++ Char.ofNat 46 :: natToChars v.patch
      = natToChars v.major ++ Char.ofNat 46 :: (natToChars v.minor
        ++ Char.ofNat 46 :: natToChars v.patch) by simp]
  rw [splitOnDot_append _ _ (dot_not_mem_natToChars _),
    splitOnDot_append _ _ (dot_not_mem_natToChars _),
    splitOnDot_no_dot _ (dot_not_mem_natToChars _)]
  simp [natToChars_valid, parseNatChars_natToChars]

theorem decodeVersion_roundtrip (v : Version) :
    decodeVersion (encodeVersion v) = .ok v :=
  parseVersionString_roundtrip v

theorem decodeElems_roundtrip (dec : Json → Except String α) (enc : α → Json)
    (h : ∀ x, dec (enc x) = .ok x) (xs : List α) :
    decodeElems dec (xs.map enc) = .ok xs := by
  induction xs with
  | nil => rfl
  | cons x xs ih => simp [decodeElems, h x, ih, except_bind_ok]

theorem decodeList_roundtrip (dec : Json → Except String α) (enc : α → Json)
    (h : ∀ x, dec (enc x) = .ok x) (xs : List α) :
    decodeList dec (.arr (xs.map enc)) = .ok xs := by
  simp [decodeList, decodeElems_roundtrip dec enc h xs]

theorem decodeList_str_roundtrip (xs : List String) :
    decodeList decodeString (.arr (xs.map Json.str)) = .ok xs :=
  decodeList_roundtrip decodeString Json.str (fun _ => rfl) xs

theorem decodeList_pkgid_roundtrip (xs : List PackageId) :
    decodeList decodePackageId (.arr (xs.map (fun i => Json.str i.repr))) = .ok xs :=
  decodeList_roundtrip decodePackageId (fun i => Json.str i.repr) (fun _ => rfl) xs

theorem decodeOption_str_roundtrip (o : Option String) :
    decodeOption decodeString (encodeOption Json.str o) = .ok o := by
  cases o <;> rfl

theorem decodeOption_pkgid_roundtrip (o : Option PackageId) :
    decodeOption decodePackageId (encodeOption (fun i => Json.str i.repr) o) = .ok o := by
  cases o <;> rfl

theorem decodeEdition_roundtrip (e : Edition) :
    decodeEdition (encodeEdition e) = .ok e := by
  cases e <;> rfl

theorem decodePackageManager_roundtrip (pm : PackageManager) :
    decodePackageManager (encodePackageManager pm) = .ok pm := by
  cases pm <;> rfl

theorem decodeUsize_roundtrip (n : Nat) : decodeUsize (.num (Int.ofNat n)) = .ok n := by
  simp only [decodeUsize]
  rw [if_neg (by simp [Int.ofNat_eq_coe])]
  simp

theorem decodeUsize_roundtrip_cast (n : Nat) : decodeUsize (.num (n : Int)) = .ok n :=
  decodeUsize_roundtrip n

theorem decodeDependency_roundtrip (d : Dependency) :
    decodeDependency (encodeDependency d) = .ok d := by
  obtain ⟨name, rename, path⟩ := d
  simp [decodeDependency, encodeDependency, reqField, optionField, getField,
    decodeString, decodeOption_str_roundtrip, except_bind_ok]

theorem decodeList_dep_roundtrip (xs : List Dependency) :
    decodeList decodeDependency (.arr (xs.map encodeDependency)) = .ok xs :=
  decodeList_roundtrip decodeDependency encodeDependency decodeDependency_roundtrip xs

theorem decodeNodeDependency_roundtrip (d : NodeDependency) :
    decodeNodeDependency (encodeNodeDependency d) = .ok d := by
  obtain ⟨name, pkg⟩ := d
  simp [decodeNodeDependency, encodeNodeDependency, reqField, getField,
    decodeString, decodePackageId, except_bind_ok]

theorem decodeNode_roundtrip (n : Node) : decodeNode (encodeNode n) = .ok n := by
  obtain ⟨id, renamed_dependencies, dependencies⟩ := n
  simp [decodeNode, encodeNode, reqField, optField, getField, decodePackageId,
    decodeList_pkgid_roundtrip, except_bind_ok,
    decodeList_roundtrip decodeNodeDependency encodeNodeDependency
      decodeNodeDependency_roundtrip]

theorem decodeResolve_roundtrip (r : Resolve) :
    decodeResolve (encodeResolve r) = .ok r := by
  obtain ⟨nodes, root⟩ := r
  simp [decodeResolve, encodeResolve, reqField, optionField, getField,
    decodeOption_pkgid_roundtrip, except_bind_ok,
    decodeList_roundtrip decodeNode encodeNode decodeNode_roundtrip]

theorem decodeOption_resolve_roundtrip (o : Option Resolve) :
    decodeOption decodeResolve (encodeOption encodeResolve o) = .ok o := by
  cases o with
  | none => rfl
  | some r =>
    show (decodeResolve (encodeResolve r)).map some = Except.ok (some r)
    rw [decodeResolve_roundtrip]
    rfl

theorem decodePackage_roundtrip (p : Package) :
    decodePackage (encodePackage p) = .ok p := by
  obtain ⟨name, version, authors, id, description, dependencies, license, license_file,
    manifest_path, categories, keywords, readme, repository, homepage, documentation,
    edition, metadata⟩ := p
  by_cases hm : metadata = Json.null
  · subst hm
    simp [decodePackage, encodePackage, reqField, optField, optionField, getField,
      Json.is_null, decodeString, decodePackageId, decodeJsonValue,
      decodeVersion_roundtrip, decodeOption_str_roundtrip, decodeList_str_roundtrip,
      decodeList_dep_roundtrip, decodeEdition_roundtrip, except_bind_ok]
  · have hm' : metadata.is_null = false := by
      cases metadata <;> simp_all [Json.is_null]
    simp [decodePackage, encodePackage, reqField, optField, optionField, getField,
      hm', decodeString, decodePackageId, decodeJsonValue,
      decodeVersion_roundtrip, decodeOption_str_roundtrip, decodeList_str_roundtrip,
      decodeList_dep_roundtrip, decodeEdition_roundtrip, except_bind_ok]

/-! ### Claim theorems -/

/-- C1: for every `Metadata` whose `resolve` is present, if `resolve.root`
is some id matching a package in `packages` then `root_package()` returns
`some` of exactly that package (the structural match, an element of
`packages` with that id); if the graph declares no root, or the root id
matches no package, `root_package()` returns `none`. -/
theorem root_package_with_resolve_spec (m : Metadata) (r : Resolve)
    (hres : m.resolve = some r) :
    (∀ rid : PackageId, r.root = some rid →
      ((∃ p ∈ m.packages, p.id = rid) →
        ∃ p, m.root_package = some p ∧ p ∈ m.packages ∧ p.id = rid) ∧
      ((∀ p ∈ m.packages, p.id ≠ rid) → m.root_package = none)) ∧
    (r.root = none → m.root_package = none) := by
  constructor
  · intro rid hroot
    constructor
    · intro hex
      have hex' : ∃ p ∈ m.packages, (fun pkg => decide (pkg.id = rid)) p = true := by
        rcases hex with ⟨p, hp, hid⟩
        exact ⟨p, hp, by simp [hid]⟩
      rcases find?_some_of_exists _ _ hex' with ⟨b, hfind, hmem, hpb⟩
      refine ⟨b, ?_, hmem, by simpa using hpb⟩
      simp only [Metadata.root_package, hres, hroot]
      exact hfind
    · intro hall
      simp only [Metadata.root_package, hres, hroot]
      exact find?_eq_none_of_forall _ _ (fun p hp => by simp [hall p hp])
  · intro hroot
    simp only [Metadata.root_package, hres, hroot]

/-- Witness for C1 at `egMeta`: its resolve root `id-a` is found and is the
package `egPkg`. -/
theorem root_package_with_resolve_spec_witness :
    ∃ p, egMeta.root_package = some p ∧ p ∈ egMeta.packages ∧
      p.id = PackageId.mk "id-a" :=
  ((root_package_with_resolve_spec egMeta egResolve rfl).1 ⟨"id-a"⟩ rfl).1
    ⟨egPkg, List.mem_cons_self _ _, rfl⟩

/-- C5: for every `Metadata` whose `resolve` is absent, `root_package()`
returns the package whose `manifest_path` equals `root_package_directory`
joined with `"wesl.toml"`, and `none` when no package's manifest path
equals that joined path. -/
theorem root_package_without_resolve_spec (m : Metadata)
    (hres : m.resolve = none) :
    ((∃ p ∈ m.packages,
        p.manifest_path = pathJoin m.root_package_directory "wesl.toml") →
      ∃ p, m.root_package = some p ∧ p ∈ m.packages ∧
        p.manifest_path = pathJoin m.root_package_directory "wesl.toml") ∧
    ((∀ p ∈ m.packages,
        p.manifest_path ≠ pathJoin m.root_package_directory "wesl.toml") →
      m.root_package = none) := by
  constructor
  · intro hex
    have hex' : ∃ p ∈ m.packages,
        (fun pkg => decide (pkg.manifest_path
          = pathJoin m.root_package_directory "wesl.toml")) p = true := by
      rcases hex with ⟨p, hp, hmp⟩
      exact ⟨p, hp, by simp [hmp]⟩
    rcases find?_some_of_exists _ _ hex' with ⟨b, hfind, hmem, hpb⟩
    refine ⟨b, ?_, hmem, by simpa using hpb⟩
    simp only [Metadata.root_package, hres]
    exact hfind
  · intro hall
    simp only [Metadata.root_package, hres]
    exact find?_eq_none_of_forall _ _ (fun p hp => by simp [hall p hp])

/-- Witness for C5 at `egMetaNoResolve`: `egPkg`'s manifest path is
`/proj` joined with `wesl.toml`. -/
theorem root_package_without_resolve_spec_witness :
    ∃ p, egMetaNoResolve.root_package = some p ∧ p ∈ egMetaNoResolve.packages ∧
      p.manifest_path = pathJoin egMetaNoResolve.root_package_directory "wesl.toml" :=
  (root_package_without_resolve_spec egMetaNoResolve rfl).1
    ⟨egPkg, List.mem_cons_self _ _, rfl⟩

/-- C2: indexing `Metadata` by a `PackageId` equal to the id of some
package returns the first package in `packages` order with that id, and
indexing `Resolve` by an id present among its nodes returns the first such
node; indexing by an absent id takes the panic branch (modelled `none`,
not a recoverable value), and when the id is present that branch is
unreachable (the lookup is `some`). -/
theorem index_by_id_spec (m : Metadata) (r : Resolve) (i : PackageId) :
    (((∃ p ∈ m.packages, p.id = i) →
      ∃ k, ∃ hk : k < m.packages.length,
        m.indexPackage i = some (m.packages.get ⟨k, hk⟩) ∧
        (m.packages.get ⟨k, hk⟩).id = i ∧
        ∀ j, ∀ hj : j < m.packages.length, j < k →
          (m.packages.get ⟨j, hj⟩).id ≠ i) ∧
      ((∀ p ∈ m.packages, p.id ≠ i) → m.indexPackage i = none)) ∧
    (((∃ n ∈ r.nodes, n.id = i) →
      ∃ k, ∃ hk : k < r.nodes.length,
        r.indexNode i = some (r.nodes.get ⟨k, hk⟩) ∧
        (r.nodes.get ⟨k, hk⟩).id = i ∧
        ∀ j, ∀ hj : j < r.nodes.length, j < k →
          (r.nodes.get ⟨j, hj⟩).id ≠ i) ∧
      ((∀ n ∈ r.nodes, n.id ≠ i) → r.indexNode i = none)) := by
  constructor
  · constructor
    · intro hex
      have hex' : ∃ p ∈ m.packages,
          (fun package => decide (package.id = i)) p = true := by
        rcases hex with ⟨p, hp, hid⟩
        exact ⟨p, hp, by simp [hid]⟩
      rcases find?_first_of_exists _ _ hex' with ⟨k, hk, hfind, hpk, hjs⟩
      refine ⟨k, hk, ?_, by simpa using hpk, ?_⟩
      · simpa [Metadata.indexPackage] using hfind
      · intro j hj hjk
        simpa using hjs j hj hjk
    · intro hall
      simp only [Metadata.indexPackage]
      exact find?_eq_none_of_forall _ _ (fun p hp => by simp [hall p hp])
  · constructor
    · intro hex
      have hex' : ∃ n ∈ r.nodes, (fun node => decide (node.id = i)) n = true := by
        rcases hex with ⟨n, hn, hid⟩
        exact ⟨n, hn, by simp [hid]⟩
      rcases find?_first_of_exists _ _ hex' with ⟨k, hk, hfind, hpk, hjs⟩
      refine ⟨k, hk, ?_, by simpa using hpk, ?_⟩
      · simpa [Resolve.indexNode] using hfind
      · intro j hj hjk
        simpa using hjs j hj hjk
    · intro hall
      simp only [Resolve.indexNode]
      exact find?_eq_none_of_forall _ _ (fun n hn => by simp [hall n hn])

/-- Witness for C2 at `egMeta` and id `id-b`: the lookup returns the
package at position 1 and position 0 does not match. -/
theorem index_by_id_spec_witness :
    ∃ k, ∃ hk : k < egMeta.packages.length,
      egMeta.indexPackage ⟨"id-b"⟩ = some (egMeta.packages.get ⟨k, hk⟩) ∧
      (egMeta.packages.get ⟨k, hk⟩).id = ⟨"id-b"⟩ ∧
      ∀ j, ∀ hj : j < egMeta.packages.length, j < k →
        (egMeta.packages.get ⟨j, hj⟩).id ≠ ⟨"id-b"⟩ :=
  (index_by_id_spec egMeta egResolve ⟨"id-b"⟩).1.1
    ⟨egPkgB, List.mem_cons_of_mem _ (List.mem_cons_self _ _), rfl⟩

/-- C3: the extractor splits the captured standard output into lines and
selects exactly the first line whose first character is `{`, ignoring
other lines; when no line starts with `{` it fails with `Error::NoJson`, a
variant distinct from the `Error::Json` schema/parse failure that `parse`
produces when a selected line fails deserialization. -/
theorem extract_json_line_spec (txt : String) :
    ((∃ l ∈ rustLines txt, startsWithBrace l = true) →
      ∃ k, ∃ hk : k < (rustLines txt).length,
        extractJsonLine txt = .ok ((rustLines txt).get ⟨k, hk⟩) ∧
        startsWithBrace ((rustLines txt).get ⟨k, hk⟩) = true ∧
        ∀ j, ∀ hj : j < (rustLines txt).length, j < k →
          startsWithBrace ((rustLines txt).get ⟨j, hj⟩) = false) ∧
    ((∀ l ∈ rustLines txt, startsWithBrace l = false) →
      extractJsonLine txt = .error .NoJson) ∧
    (∀ data e, parseJsonText data = .error e →
      MetadataCommand.parse data = .error (.Json e)) ∧
    (∀ msg, Error.NoJson ≠ Error.Json msg) := by
  refine ⟨?_, ?_, ?_, ?_⟩
  · intro hex
    rcases find?_first_of_exists startsWithBrace (rustLines txt) hex with
      ⟨k, hk, hfind, hpk, hjs⟩
    refine ⟨k, hk, ?_, hpk, hjs⟩
    simp only [extractJsonLine, hfind]
  · intro hall
    have hnone := find?_eq_none_of_forall startsWithBrace (rustLines txt)
      (fun l hl => hall l hl)
    simp only [extractJsonLine, hnone]
  · intro data e hpe
    simp only [MetadataCommand.parse, hpe]
  · intro msg h
    exact Error.noConfusion h

/-- Witness for C3: in `diag`, `{json`, `rest` the extractor picks the
line at position 1 and position 0 does not start with `{`. -/
theorem extract_json_line_spec_witness :
    ∃ k, ∃ hk : k < (rustLines "diag\n\x7bjson\nrest").length,
      extractJsonLine "diag\n\x7bjson\nrest"
        = .ok ((rustLines "diag\n\x7bjson\nrest").get ⟨k, hk⟩) ∧
      startsWithBrace ((rustLines "diag\n\x7bjson\nrest").get ⟨k, hk⟩) = true ∧
      ∀ j, ∀ hj : j < (rustLines "diag\n\x7bjson\nrest").length, j < k →
        startsWithBrace ((rustLines "diag\n\x7bjson\nrest").get ⟨j, hj⟩) = false :=
  (extract_json_line_spec "diag\n\x7bjson\nrest").1
    ⟨"\x7bjson", by decide, by decide⟩

/-- C6: when the spawned process exits with nonzero status, `exec` returns
`Error::WeslMetadata` carrying the UTF-8-decoded captured standard error,
and its displayed message contains that text exactly (the fixed message
prefix followed by the stderr text); when the captured standard error is
not valid UTF-8 the result is `Error::ErrUtf8`, a kind distinct from
`Error::WeslMetadata`. -/
theorem exec_nonzero_exit_spec (out : SpawnOutput)
    (hfail : out.status_success = false) :
    (∀ s, utf8DecodeString out.stderr = some s →
      MetadataCommand.exec out = .error (.WeslMetadata s) ∧
      (Error.WeslMetadata s).display
        = "`wesl metadata` exited with an error: " ++ s) ∧
    (utf8DecodeString out.stderr = none →
      MetadataCommand.exec out = .error (.ErrUtf8 "invalid utf-8 sequence") ∧
      ∀ s, Error.ErrUtf8 "invalid utf-8 sequence" ≠ Error.WeslMetadata s) := by
  constructor
  · intro s hdec
    refine ⟨?_, rfl⟩
    simp only [MetadataCommand.exec, hfail, Bool.not_false, if_true, hdec]
  · intro hdec
    refine ⟨?_, ?_⟩
    · simp only [MetadataCommand.exec, hfail, Bool.not_false, if_true, hdec]
    · intro s h
      exact Error.noConfusion h

/-- Witness for C6 at a process that exited nonzero with stderr
`manifest not found`. -/
theorem exec_nonzero_exit_spec_witness :
    MetadataCommand.exec egFailOutput
      = .error (.WeslMetadata "manifest not found") ∧
    (Error.WeslMetadata "manifest not found").display
      = "`wesl metadata` exited with an error: " ++ "manifest not found" :=
  (exec_nonzero_exit_spec egFailOutput rfl).1 "manifest not found" (by decide)

theorem reqField_none (fields : List (String × Json)) (name : String)
    (dec : Json → Except String α) (h : getField fields name = none) :
    reqField fields name dec = .error ("missing field " ++ name) := by
  simp [reqField, h]

theorem except_ok_of_bind (x : Except ε α) (f : α → Except ε β) (b : β)
    (h : (x >>= f) = .ok b) : ∃ a, x = .ok a ∧ f a = .ok b := by
  cases x with
  | error e => rw [except_bind_error] at h; exact Except.noConfusion h
  | ok a => exact ⟨a, rfl, by rwa [except_bind_ok] at h⟩

/-- C4: serializing a `Metadata` value to JSON and deserializing the
result yields a value equal to the original.  The free-form package
`metadata` field is the one normalized spot: a `null` value is skipped on
serialization and the absent key is restored to `null` by the
deserialization default, so `null` and absent are identified and the
value-level round-trip is exact. -/
theorem metadata_serde_roundtrip (m : Metadata) :
    decodeMetadata (encodeMetadata m) = .ok m := by
  obtain ⟨package_manager, packages, resolve, target_directory, version,
    root_package_directory⟩ := m
  simp [decodeMetadata, encodeMetadata, reqField, optionField, getField,
    decodeString, decodePackageManager_roundtrip, decodeUsize_roundtrip,
    decodeUsize_roundtrip_cast, decodeOption_resolve_roundtrip, except_bind_ok,
    decodeList_roundtrip decodePackage encodePackage decodePackage_roundtrip]

/-- C7: deserializing a `Target` JSON object lacking the `doctest`, `doc`
or `test` boolean keys yields `true` for each absent one, and
deserializing a `Node` object lacking the `renamed_dependencies` key
yields an empty collection for that field; an absent required field
(`Target.name`, `Node.dependencies`, `Package.name`, `Metadata.packages`)
is a hard deserialization failure. -/
theorem deserialize_defaults_spec
    (tfields nfields pkfields mfields : List (String × Json)) :
    (∀ t, decodeTarget (.obj tfields) = .ok t →
      (getField tfields "doctest" = none → t.doctest = true) ∧
      (getField tfields "test" = none → t.test = true) ∧
      (getField tfields "doc" = none → t.doc = true)) ∧
    (∀ n, decodeNode (.obj nfields) = .ok n →
      getField nfields "renamed_dependencies" = none →
        n.renamed_dependencies = []) ∧
    (getField tfields "name" = none →
      ∃ e, decodeTarget (.obj tfields) = .error e) ∧
    (getField nfields "dependencies" = none →
      ∃ e, decodeNode (.obj nfields) = .error e) ∧
    (getField pkfields "name" = none →
      ∃ e, decodePackage (.obj pkfields) = .error e) ∧
    (getField mfields "packages" = none →
      ∃ e, decodeMetadata (.obj mfields) = .error e) := by
  refine ⟨?_, ?_, ?_, ?_, ?_, ?_⟩
  · intro t ht
    simp only [decodeTarget] at ht
    obtain ⟨name, h1, ht⟩ := except_ok_of_bind _ _ _ ht
    obtain ⟨rf, h2, ht⟩ := except_ok_of_bind _ _ _ ht
    obtain ⟨sp, h3, ht⟩ := except_ok_of_bind _ _ _ ht
    obtain ⟨ed, h4, ht⟩ := except_ok_of_bind _ _ _ ht
    obtain ⟨dt, h5, ht⟩ := except_ok_of_bind _ _ _ ht
    obtain ⟨te, h6, ht⟩ := except_ok_of_bind _ _ _ ht
    obtain ⟨dc, h7, ht⟩ := except_ok_of_bind _ _ _ ht
    injection ht with ht
    subst ht
    refine ⟨fun habs => ?_, fun habs => ?_, fun habs => ?_⟩
    · simp only [optField, habs] at h5
      injection h5 with h5
      exact h5.symm
    · simp only [optField, habs] at h6
      injection h6 with h6
      exact h6.symm
    · simp only [optField, habs] at h7
      injection h7 with h7
      exact h7.symm
  · intro n hn habs
    simp only [decodeNode] at hn
    obtain ⟨id, h1, hn⟩ := except_ok_of_bind _ _ _ hn
    obtain ⟨rd, h2, hn⟩ := except_ok_of_bind _ _ _ hn
    obtain ⟨deps, h3, hn⟩ := except_ok_of_bind _ _ _ hn
    injection hn with hn
    subst hn
    simp only [optField, habs] at h2
    injection h2 with h2
    exact h2.symm
  · intro habs
    exact ⟨"missing field " ++ "name",
      by simp [decodeTarget, reqField, habs, except_bind_error]⟩
  · intro habs
    cases h1 : reqField nfields "id" decodePackageId with
    | error e => exact ⟨e, by simp [decodeNode, h1, except_bind_error]⟩
    | ok id =>
      cases h2 : optField nfields "renamed_dependencies"
          (decodeList decodeNodeDependency) [] with
      | error e =>
        exact ⟨e, by simp [decodeNode, h1, h2, except_bind_error, except_bind_ok]⟩
      | ok rd =>
        exact ⟨"missing field " ++ "dependencies",
          by simp [decodeNode, h1, h2, reqField_none _ _ _ habs, except_bind_error,
            except_bind_ok]⟩
  · intro habs
    exact ⟨"missing field " ++ "name",
      by simp [decodePackage, reqField_none _ _ _ habs, except_bind_error]⟩
  · intro habs
    cases h1 : reqField mfields "package_manager" decodePackageManager with
    | error e => exact ⟨e, by simp [decodeMetadata, h1, except_bind_error]⟩
    | ok pm =>
      exact ⟨"missing field " ++ "packages",
        by simp [decodeMetadata, h1, reqField_none _ _ _ habs, except_bind_error,
          except_bind_ok]⟩

/-- Witness for C7: a minimal `Target` object (only `name` and `src_path`)
decodes with all three booleans `true`, and a minimal `Node` object (only
`id` and `dependencies`) decodes with no renamed dependencies. -/
theorem deserialize_defaults_spec_witness :
    ((Target.mk "t" [] "s" .Wgsl true true true).doctest = true ∧
      (Target.mk "t" [] "s" .Wgsl true true true).test = true ∧
      (Target.mk "t" [] "s" .Wgsl true true true).doc = true) ∧
    (Node.mk ⟨"i"⟩ [] []).renamed_dependencies = [] ∧
    (∃ e, decodeTarget (.obj []) = .error e) := by
  have h := deserialize_defaults_spec
    [("name", Json.str "t"), ("src_path", Json.str "s")]
    [("id", Json.str "i"), ("dependencies", Json.arr [])] [] []
  exact ⟨⟨((h.1 _ rfl).1) rfl, ((h.1 _ rfl).2.1) rfl, ((h.1 _ rfl).2.2) rfl⟩,
    h.2.1 _ rfl rfl,
    (deserialize_defaults_spec [] [] [] []).2.2.1 rfl⟩

/-- C8: building the command is a pure, total function of the
configuration: the argument list is exactly `metadata`, then
`--no-dependencies` when the flag is set, then `--manifest-path` followed
by the manifest path when one is set, then the extra trailing arguments
last; the program is the configured path, else the `WESL` environment
variable, else `wesl`; the working directory and environment operations
are passed through untouched. -/
theorem wesl_command_args_spec (cmd : MetadataCommand) (envWESL : Option String) :
    (cmd.wesl_command envWESL).args
      = ["metadata"]
        ++ (if cmd.no_dependencies then ["--no-dependencies"] else [])
        ++ (match cmd.manifest_path with
            | some path => ["--manifest-path", path]
            | none => [])
        ++ cmd.other_options ∧
    (cmd.wesl_command envWESL).program
      = (match cmd.wesl_path, envWESL with
         | some path, _ => path
         | none, some wesl => wesl
         | none, none => "wesl") ∧
    (cmd.wesl_command envWESL).current_dir = cmd.current_dir ∧
    (cmd.wesl_command envWESL).env_ops = cmd.env := by
  obtain ⟨wesl_path, manifest_path, current_dir, no_dependencies, other_options,
    env, verbose⟩ := cmd
  refine ⟨?_, ?_, rfl, rfl⟩
  · cases no_dependencies <;> cases manifest_path <;>
      simp [MetadataCommand.wesl_command]
  · cases wesl_path <;> cases envWESL <;>
      simp [MetadataCommand.wesl_command, Option.orElse, Option.getD]

/-- C9: `license_file()` and `readme()` return `some` of the manifest
path's parent directory joined with the respective relative field exactly
when that field is present, and `none` exactly when the field is
absent. -/
theorem license_readme_paths_spec (p : Package) (dir : String)
    (hpar : pathParent p.manifest_path = some dir) :
    (∀ file, p.license_file = some file →
      p.license_file_path = some (pathJoin dir file)) ∧
    (p.license_file = none → p.license_file_path = none) ∧
    (p.license_file_path = none → p.license_file = none) ∧
    (∀ file, p.readme = some file → p.readme_path = some (pathJoin dir file)) ∧
    (p.readme = none → p.readme_path = none) ∧
    (p.readme_path = none → p.readme = none) := by
  have hd : (pathParent p.manifest_path).getD p.manifest_path = dir := by
    rw [hpar]
    rfl
  refine ⟨?_, ?_, ?_, ?_, ?_, ?_⟩
  · intro file hf
    simp [Package.license_file_path, hf, hd]
  · intro hf
    simp [Package.license_file_path, hf]
  · intro hf
    cases hlf : p.license_file with
    | none => rfl
    | some f => simp [Package.license_file_path, hlf] at hf
  · intro file hf
    simp [Package.readme_path, hf, hd]
  · intro hf
    simp [Package.readme_path, hf]
  · intro hf
    cases hr : p.readme with
    | none => rfl
    | some f => simp [Package.readme_path, hr] at hf

/-- Witness for C9 at `egPkg`: its manifest `/proj/wesl.toml` has parent
`/proj`, and its `LICENSE` entry resolves there. -/
theorem license_readme_paths_spec_witness :
    egPkg.license_file_path = some (pathJoin "/proj" "LICENSE") :=
  (license_readme_paths_spec egPkg "/proj" (by decide)).1 "LICENSE" rfl

/-- C10: when the `edition` key is absent from a `Package` or `Target`
JSON object, deserialization defaults it to `Wgsl` (string representation
`WGSL`), which is distinct from the WESL variant; a string other than the
two recognized spellings is a hard parse error. -/
theorem edition_default_spec (pfields tfields : List (String × Json)) :
    (∀ p, decodePackage (.obj pfields) = .ok p →
      getField pfields "edition" = none → p.edition = .Wgsl) ∧
    (∀ t, decodeTarget (.obj tfields) = .ok t →
      getField tfields "edition" = none → t.edition = .Wgsl) ∧
    Edition.Wgsl.as_str = "WGSL" ∧
    Edition.Wgsl ≠ Edition.WeslUnstable2025 ∧
    (∀ s, s ≠ "WGSL" → s ≠ "WESL" →
      ∃ e, decodeEdition (.str s) = .error e) := by
  refine ⟨?_, ?_, rfl, by decide, ?_⟩
  · intro p hp habs
    simp only [decodePackage] at hp
    obtain ⟨name, h1, hp⟩ := except_ok_of_bind _ _ _ hp
    obtain ⟨version, h2, hp⟩ := except_ok_of_bind _ _ _ hp
    obtain ⟨authors, h3, hp⟩ := except_ok_of_bind _ _ _ hp
    obtain ⟨id, h4, hp⟩ := except_ok_of_bind _ _ _ hp
    obtain ⟨description, h5, hp⟩ := except_ok_of_bind _ _ _ hp
    obtain ⟨dependencies, h6, hp⟩ := except_ok_of_bind _ _ _ hp
    obtain ⟨license, h7, hp⟩ := except_ok_of_bind _ _ _ hp
    obtain ⟨license_file, h8, hp⟩ := except_ok_of_bind _ _ _ hp
    obtain ⟨manifest_path, h9, hp⟩ := except_ok_of_bind _ _ _ hp
    obtain ⟨categories, h10, hp⟩ := except_ok_of_bind _ _ _ hp
    obtain ⟨keywords, h11, hp⟩ := except_ok_of_bind _ _ _ hp
    obtain ⟨readme, h12, hp⟩ := except_ok_of_bind _ _ _ hp
    obtain ⟨repository, h13, hp⟩ := except_ok_of_bind _ _ _ hp
    obtain ⟨homepage, h14, hp⟩ := except_ok_of_bind _ _ _ hp
    obtain ⟨documentation, h15, hp⟩ := except_ok_of_bind _ _ _ hp
    obtain ⟨edition, h16, hp⟩ := except_ok_of_bind _ _ _ hp
    obtain ⟨metadata, h17, hp⟩ := except_ok_of_bind _ _ _ hp
    injection hp with hp
    subst hp
    simp only [optField, habs] at h16
    injection h16 with h16
    exact h16.symm
  · intro t ht habs
    simp only [decodeTarget] at ht
    obtain ⟨name, h1, ht⟩ := except_ok_of_bind _ _ _ ht
    obtain ⟨rf, h2, ht⟩ := except_ok_of_bind _ _ _ ht
    obtain ⟨sp, h3, ht⟩ := except_ok_of_bind _ _ _ ht
    obtain ⟨ed, h4, ht⟩ := except_ok_of_bind _ _ _ ht
    obtain ⟨dt, h5, ht⟩ := except_ok_of_bind _ _ _ ht
    obtain ⟨te, h6, ht⟩ := except_ok_of_bind _ _ _ ht
    obtain ⟨dc, h7, ht⟩ := except_ok_of_bind _ _ _ ht
    injection ht with ht
    subst ht
    simp only [optField, habs] at h4
    injection h4 with h4
    exact h4.symm
  · intro s hs1 hs2
    exact ⟨"unknown variant of Edition", by simp [decodeEdition, hs1, hs2]⟩

/-- Witness for C10: a `Target` object without an `edition` key decodes to
the `Wgsl` edition, and the string `2021` is rejected. -/
theorem edition_default_spec_witness :
    (Target.mk "t" [] "s" .Wgsl true true true).edition = .Wgsl ∧
    ∃ e, decodeEdition (.str "2021") = .error e := by
  have h := edition_default_spec []
    [("name", Json.str "t"), ("src_path", Json.str "s")]
  exact ⟨h.2.1 _ rfl rfl, h.2.2.2.2 "2021" (by decide) (by decide)⟩
